import Mathlib

/-!
Verification of the BanUSave codec (`src/index.js`).

The development shallowly embeds the two layers of the library:

* the value codec `encodeValue` / `decodeValue` (with its `encodeArray`,
  `encodeObject`, `decodeArray`, `decodeObject` helpers), and
* the envelope codec `encode` / `decode` with magic header, game id and
  SHA-256 checksum.

Modelling conventions, fixed once for the whole file:

* Buffers and JavaScript strings are modelled as `List Nat` of byte values.
  JavaScript strings enter the codec only through their UTF-8 byte encodings
  (`Buffer.from`, `Buffer.prototype.write`), which is a lossless bijection on
  the valid byte sequences these produce, so game ids, string values and
  object keys are carried as byte lists on both the encode and decode side.
* The two places where the source compares arbitrary (not necessarily valid
  UTF-8) bytes via `Buffer.prototype.toString` — the magic-header test and the
  checksum test in `decode` — are modelled through `utf8Lossy`, a
  WHATWG-style replacing UTF-8 decoder, because `toString` is lossy there and
  the comparison really happens between the replaced strings.
* `crypto.createHash("sha256")` is modelled by a full executable SHA-256,
  checked below against the FIPS 180 test vectors.
* Out-of-range reads (`Buffer.prototype.readUint8` and friends throw
  `ERR_OUT_OF_RANGE`) and the other thrown errors are modelled with `Except`.
* JavaScript numbers read back by `readDoubleBE` are carried as their raw
  64-bit big-endian payload (`JSValue.float bits`); the codec never computes
  with the double, so the bit pattern is the faithful representation.
* A value whose `typeof` is none of the handled cases (`undefined`, a
  function, a symbol) is modelled by the constructor `JSValue.undef`;
  `encodeValue` returns JavaScript `undefined` for it (so the enclosing
  `Buffer.concat` throws a `TypeError`), and `decodeValue` produces it for an
  unknown tag byte, mirroring the source's fall-through `switch`.
-/

set_option maxRecDepth 40000

/-! ## SHA-256 (model of `crypto.createHash("sha256")`) -/

/-- Reduce modulo `2 ^ 32`. -/
def m32 (x : Nat) : Nat := x % 4294967296

/-- Rotate a 32-bit word right by `n` bits. -/
def rotr (n x : Nat) : Nat := ((x >>> n) ||| (x <<< (32 - n))) &&& 4294967295

def bsig0 (x : Nat) : Nat := (rotr 2 x) ^^^ (rotr 13 x) ^^^ (rotr 22 x)

def bsig1 (x : Nat) : Nat := (rotr 6 x) ^^^ (rotr 11 x) ^^^ (rotr 25 x)

def ssig0 (x : Nat) : Nat := (rotr 7 x) ^^^ (rotr 18 x) ^^^ (x >>> 3)

def ssig1 (x : Nat) : Nat := (rotr 17 x) ^^^ (rotr 19 x) ^^^ (x >>> 10)

def chF (x y z : Nat) : Nat := (x &&& y) ^^^ ((x ^^^ 4294967295) &&& z)

def majF (x y z : Nat) : Nat := (x &&& y) ^^^ (x &&& z) ^^^ (y &&& z)

/-- The 64 SHA-256 round constants. -/
def k256 : List Nat :=
  [1116352408, 1899447441, 3049323471, 3921009573, 961987163, 1508970993,
   2453635748, 2870763221, 3624381080, 310598401, 607225278, 1426881987,
   1925078388, 2162078206, 2614888103, 3248222580, 3835390401, 4022224774,
   264347078, 604807628, 770255983, 1249150122, 1555081692, 1996064986,
   2554220882, 2821834349, 2952996808, 3210313671, 3336571891, 3584528711,
   113926993, 338241895, 666307205, 773529912, 1294757372, 1396182291,
   1695183700, 1986661051, 2177026350, 2456956037, 2730485921, 2820302411,
   3259730800, 3345764771, 3516065817, 3600352804, 4094571909, 275423344,
   430227734, 506948616, 659060556, 883997877, 958139571, 1322822218,
   1537002063, 1747873779, 1955562222, 2024104815, 2227730452, 2361852424,
   2428436474, 2756734187, 3204031479, 3329325298]

/-- The eight 32-bit words of a SHA-256 chaining state. -/
structure H8 where
  a : Nat
  b : Nat
  c : Nat
  d : Nat
  e : Nat
  f : Nat
  g : Nat
  h : Nat

/-- SHA-256 initial state. -/
def initH : H8 :=
  ⟨1779033703, 3144134277, 1013904242, 2773480762, 1359893119, 2600822924, 528734635, 1541459225⟩

/-- One compression round; `kw` is the round constant plus the schedule word. -/
def step (st : H8) (kw : Nat) : H8 :=
  let t1 := st.h + bsig1 st.e + chF st.e st.f st.g + kw
  let t2 := bsig0 st.a + majF st.a st.b st.c
  ⟨m32 (t1 + t2), st.a, st.b, st.c, m32 (st.d + t1), st.e, st.f, st.g⟩

/-- Run the 64 compression rounds. -/
def steps : H8 → List Nat → H8
  | st, [] => st
  | st, kw :: r => steps (step st kw) r

/-- Wordwise sum of two states, modulo `2 ^ 32`. -/
def addH (x y : H8) : H8 :=
  ⟨m32 (x.a + y.a), m32 (x.b + y.b), m32 (x.c + y.c), m32 (x.d + y.d),
   m32 (x.e + y.e), m32 (x.f + y.f), m32 (x.g + y.g), m32 (x.h + y.h)⟩

/-- Big-endian bytes to 32-bit words, four at a time. -/
def bytesToWords : List Nat → List Nat
  | a :: b :: c :: d :: rest => (a * 16777216 + b * 65536 + c * 256 + d) :: bytesToWords rest
  | _ => []

/-- The `k`-th element of a word list, defaulting to `0`. -/
def nthW (ws : List Nat) (k : Nat) : Nat := ws[k]?.getD 0

/-- Extend the message schedule by `n` words; `ws` holds the schedule so far,
most recent word first. -/
def extendW : Nat → List Nat → List Nat
  | 0, ws => ws
  | n + 1, ws =>
    extendW n (m32 (ssig1 (nthW ws 1) + nthW ws 6 + ssig0 (nthW ws 14) + nthW ws 15) :: ws)

/-- The 64-word message schedule of one 64-byte block. -/
def schedule (block : List Nat) : List Nat :=
  (extendW 48 (bytesToWords block).reverse).reverse

/-- Schedule words with the round constants added in. -/
def kwList (block : List Nat) : List Nat :=
  List.zipWith (fun k w => k + w) k256 (schedule block)

/-- Fold the compression function over `n` 64-byte blocks. -/
def sha256Go : Nat → H8 → List Nat → H8
  | 0, st, _ => st
  | n + 1, st, bytes => sha256Go n (addH st (steps st (kwList (bytes.take 64)))) (bytes.drop 64)

/-- Big-endian bytes of the low 32 bits. -/
def w4 (x : Nat) : List Nat := [x / 16777216 % 256, x / 65536 % 256, x / 256 % 256, x % 256]

/-- Big-endian bytes of the low 64 bits. -/
def w8 (x : Nat) : List Nat := w4 (x / 4294967296) ++ w4 x

/-- Digest bytes of a state. -/
def h8bytes (st : H8) : List Nat :=
  w4 st.a ++ w4 st.b ++ w4 st.c ++ w4 st.d ++ w4 st.e ++ w4 st.f ++ w4 st.g ++ w4 st.h

/-- FIPS 180 padding: `0x80`, zeros to 56 mod 64, and the bit length. -/
def padded (msg : List Nat) : List Nat :=
  msg ++ 128 :: List.replicate ((119 - msg.length % 64) % 64) 0 ++ w8 (8 * msg.length)

/-- SHA-256 of a byte list. -/
def sha256 (msg : List Nat) : List Nat :=
  h8bytes (sha256Go ((padded msg).length / 64) initH (padded msg))

/-- The checksum always has 32 bytes. -/
theorem sha256_length (msg : List Nat) : (sha256 msg).length = 32 := rfl

/-- FIPS 180 test vector: the empty message. -/
theorem sha256_vector_empty :
    sha256 [] =
      [227, 176, 196, 66, 152, 252, 28, 20, 154, 251, 244, 200, 153, 111, 185, 36,
       39, 174, 65, 228, 100, 155, 147, 76, 164, 149, 153, 27, 120, 82, 184, 85] := rfl

/-- FIPS 180 test vector: the three-byte message `abc`. -/
theorem sha256_vector_abc :
    sha256 [97, 98, 99] =
      [186, 120, 22, 191, 143, 1, 207, 234, 65, 65, 64, 222, 93, 174, 34, 35,
       176, 3, 97, 163, 150, 23, 122, 156, 180, 16, 255, 97, 242, 0, 21, 173] := rfl

/-- FIPS 180 test vector: the 56-byte two-block message. -/
theorem sha256_vector_two_blocks :
    sha256 [97, 98, 99, 100, 98, 99, 100, 101, 99, 100, 101, 102, 100, 101, 102, 103,
            101, 102, 103, 104, 102, 103, 104, 105, 103, 104, 105, 106, 104, 105, 106, 107,
            105, 106, 107, 108, 106, 107, 108, 109, 107, 108, 109, 110, 108, 109, 110, 111,
            109, 110, 111, 112, 110, 111, 112, 113] =
      [36, 141, 106, 97, 210, 6, 56, 184, 229, 192, 38, 147, 12, 62, 96, 57,
       163, 60, 228, 89, 100, 255, 33, 103, 246, 236, 237, 212, 25, 219, 6, 193] := rfl

/-! ## Lossy UTF-8 decoding (model of `Buffer.prototype.toString("utf8")`)

Node's `toString("utf8")` never throws: ill-formed subsequences are replaced
by U+FFFD following the WHATWG decoder (one replacement per maximal subpart).
`decode` in the source compares the magic header and the checksum through
`toString`, so the byte-to-string collapse must be modelled. -/

/-- Lower bound for the second byte of a three-byte sequence. -/
def lo3 (b : Nat) : Nat := if b = 224 then 160 else 128

/-- Upper bound for the second byte of a three-byte sequence. -/
def hi3 (b : Nat) : Nat := if b = 237 then 159 else 191

/-- Lower bound for the second byte of a four-byte sequence. -/
def lo4 (b : Nat) : Nat := if b = 240 then 144 else 128

/-- Upper bound for the second byte of a four-byte sequence. -/
def hi4 (b : Nat) : Nat := if b = 244 then 143 else 191

/-- WHATWG replacing UTF-8 decoder: byte list to code-point list, with
`U+FFFD` (65533) for each maximal ill-formed subpart. -/
def utf8Lossy : List Nat → List Nat
  | [] => []
  | b :: r =>
    if b < 128 then b :: utf8Lossy r
    else if 194 ≤ b ∧ b ≤ 223 then
      match r with
      | [] => [65533]
      | c :: r2 =>
        if 128 ≤ c ∧ c ≤ 191 then ((b - 192) * 64 + (c - 128)) :: utf8Lossy r2
        else 65533 :: utf8Lossy (c :: r2)
    else if 224 ≤ b ∧ b ≤ 239 then
      match r with
      | [] => [65533]
      | c :: r2 =>
        if lo3 b ≤ c ∧ c ≤ hi3 b then
          match r2 with
          | [] => [65533]
          | d :: r3 =>
            if 128 ≤ d ∧ d ≤ 191 then
              ((b - 224) * 4096 + (c - 128) * 64 + (d - 128)) :: utf8Lossy r3
            else 65533 :: utf8Lossy (d :: r3)
        else 65533 :: utf8Lossy (c :: r2)
    else if 240 ≤ b ∧ b ≤ 244 then
      match r with
      | [] => [65533]
      | c :: r2 =>
        if lo4 b ≤ c ∧ c ≤ hi4 b then
          match r2 with
          | [] => [65533]
          | d :: r3 =>
            if 128 ≤ d ∧ d ≤ 191 then
              match r3 with
              | [] => [65533]
              | e :: r4 =>
                if 128 ≤ e ∧ e ≤ 191 then
                  ((b - 240) * 262144 + (c - 128) * 4096 + (d - 128) * 64 + (e - 128)) :: utf8Lossy r4
                else 65533 :: utf8Lossy (e :: r4)
              else 65533 :: utf8Lossy (d :: r3)
        else 65533 :: utf8Lossy (c :: r2)
    else 65533 :: utf8Lossy r

/-- An ASCII byte decodes to itself. -/
theorem utf8Lossy_ascii_cons (b : Nat) (r : List Nat) (hb : b < 128) :
    utf8Lossy (b :: r) = b :: utf8Lossy r := by
  match r with
  | [] => rw [utf8Lossy.eq_2, if_pos hb]
  | [c] => rw [utf8Lossy.eq_3, if_pos hb]
  | [c, d] => rw [utf8Lossy.eq_4, if_pos hb]
  | c :: d :: e :: r4 => rw [utf8Lossy.eq_5, if_pos hb]

/-- Bounds on the three-byte second-continuation window. -/
theorem lo3_hi3_spec (b : Nat) :
    128 ≤ lo3 b ∧ (b = 224 → lo3 b = 160) ∧ hi3 b ≤ 191 := by
  unfold lo3 hi3
  split_ifs <;> simp_all

/-- Bounds on the four-byte second-continuation window. -/
theorem lo4_hi4_spec (b : Nat) :
    128 ≤ lo4 b ∧ (b = 240 → lo4 b = 144) ∧ hi4 b ≤ 191 := by
  unfold lo4 hi4
  split_ifs <;> simp_all

/-- A non-ASCII first byte always produces a first code point of at least 128
(either a replacement character or a multi-byte scalar value). -/
theorem utf8Lossy_head_high (b : Nat) (r : List Nat) (hb : ¬ b < 128) :
    ∃ cp out, utf8Lossy (b :: r) = cp :: out ∧ 128 ≤ cp := by
  have hl3 := lo3_hi3_spec b
  have hl4 := lo4_hi4_spec b
  match r with
  | [] =>
    rw [utf8Lossy.eq_2]
    split_ifs <;> first
      | exact absurd (by assumption) hb
      | exact ⟨_, _, rfl, by omega⟩
  | [c] =>
    rw [utf8Lossy.eq_3]
    split_ifs <;> first
      | exact absurd (by assumption) hb
      | exact ⟨_, _, rfl, by omega⟩
  | [c, d] =>
    rw [utf8Lossy.eq_4]
    split_ifs <;> first
      | exact absurd (by assumption) hb
      | exact ⟨_, _, rfl, by omega⟩
  | c :: d :: e :: r4 =>
    rw [utf8Lossy.eq_5]
    split_ifs <;> first
      | exact absurd (by assumption) hb
      | exact ⟨_, _, rfl, by omega⟩

/-- The decoder output is empty only for empty input. -/
theorem utf8Lossy_eq_nil (bs : List Nat) (h : utf8Lossy bs = []) : bs = [] := by
  match bs with
  | [] => rfl
  | b :: r =>
    by_cases hb : b < 128
    · rw [utf8Lossy_ascii_cons b r hb] at h
      exact absurd h (List.cons_ne_nil _ _)
    · obtain ⟨cp, out, he, _⟩ := utf8Lossy_head_high b r hb
      rw [he] at h
      exact absurd h (List.cons_ne_nil _ _)

/-- Peeling one ASCII code point off the decoder output peels exactly one
byte off the input. -/
theorem utf8Lossy_peel (x : Nat) (hx : x < 128) (bs out : List Nat)
    (h : utf8Lossy bs = x :: out) : ∃ r, bs = x :: r ∧ utf8Lossy r = out := by
  match bs with
  | [] => simp [utf8Lossy] at h
  | b :: r =>
    by_cases hb : b < 128
    · rw [utf8Lossy_ascii_cons b r hb] at h
      obtain ⟨h1, h2⟩ := List.cons.inj h
      exact ⟨r, by rw [h1], h2⟩
    · obtain ⟨cp, o2, he, hcp⟩ := utf8Lossy_head_high b r hb
      rw [he] at h
      obtain ⟨h1, _⟩ := List.cons.inj h
      omega

/-- The magic header string, as code points: `"BANUSAVE2"`. -/
def magicStr : List Nat := [66, 65, 78, 85, 83, 65, 86, 69, 50]

/-- Only the exact ASCII bytes of `"BANUSAVE2"` decode to `"BANUSAVE2"`:
comparing `toString` results against this pure-ASCII literal is as strong as
comparing the bytes. -/
theorem utf8Lossy_magic (bs : List Nat) (h : utf8Lossy bs = magicStr) : bs = magicStr := by
  unfold magicStr at h ⊢
  obtain ⟨r1, rfl, h1⟩ := utf8Lossy_peel 66 (by omega) _ _ h
  obtain ⟨r2, rfl, h2⟩ := utf8Lossy_peel 65 (by omega) _ _ h1
  obtain ⟨r3, rfl, h3⟩ := utf8Lossy_peel 78 (by omega) _ _ h2
  obtain ⟨r4, rfl, h4⟩ := utf8Lossy_peel 85 (by omega) _ _ h3
  obtain ⟨r5, rfl, h5⟩ := utf8Lossy_peel 83 (by omega) _ _ h4
  obtain ⟨r6, rfl, h6⟩ := utf8Lossy_peel 65 (by omega) _ _ h5
  obtain ⟨r7, rfl, h7⟩ := utf8Lossy_peel 86 (by omega) _ _ h6
  obtain ⟨r8, rfl, h8⟩ := utf8Lossy_peel 69 (by omega) _ _ h7
  obtain ⟨r9, rfl, h9⟩ := utf8Lossy_peel 50 (by omega) _ _ h8
  rw [utf8Lossy_eq_nil _ h9]

/-! ## The JSON value tree

`JSONValue` from the source typedef, as a sum type. `JSValue.undef` stands
for any JavaScript value whose `typeof` falls outside the handled cases
(`undefined`, functions, symbols): `encodeValue` has no `switch` branch for
it and `decodeValue` produces it for unknown tags. Arrays and object entry
lists are mutually inductive so that every function below is structurally
recursive (object entries are listed in JavaScript enumeration order, which
is the order `for (let key in object)` visits and re-insertion preserves). -/

mutual
inductive JSValue where
  | null
  | bool (b : Bool)
  | int (n : Int)
  | float (bits : Nat)
  | str (s : List Nat)
  | arr (xs : JSList)
  | obj (ps : JSPairs)
  | undef
  deriving DecidableEq
inductive JSList where
  | nil
  | cons (v : JSValue) (rest : JSList)
  deriving DecidableEq
inductive JSPairs where
  | nil
  | cons (k : List Nat) (v : JSValue) (rest : JSPairs)
  deriving DecidableEq
end

deriving instance DecidableEq for Except

/-- Errors thrown while encoding. -/
inductive EncErr where

  /-- `TypeError` from `Buffer.concat` when `encodeValue` returned
  `undefined` for an unhandled `typeof`. -/
  | typeErr

  /-- `ERR_OUT_OF_RANGE` from `writeBigInt64BE` on a bigint outside the
  signed 64-bit range. -/
  | rangeErr
  deriving DecidableEq

/-- Two's-complement big-endian bytes of a signed 64-bit integer
(`writeBigInt64BE`). -/
def i64be (n : Int) : List Nat := w8 (n % 18446744073709551616).toNat

/-! ## The encoder (`encodeValue`, `encodeObject`, `encodeArray`) -/

mutual

/-- `encodeValue` from the source: dispatch on `typeof`. The `undef` case is
the fall-through of the `switch`: `encoded` stays `undefined` and the
enclosing `Buffer.concat` throws, modelled as `typeErr`. The `arr` and `obj`
cases are `encodeArray` and `encodeObject` from the source, inlined (wrapper
functions on the same argument would defeat structural recursion); the
standalone wrappers are restated right after the block. -/
def encodeValue : JSValue → Except EncErr (List Nat)
  | .null => .ok [0x00]
  | .bool b => .ok [if b then 0x02 else 0x01]
  | .int n =>
    if -9223372036854775808 ≤ n ∧ n < 9223372036854775808 then .ok (0x10 :: i64be n)
    else .error .rangeErr
  | .float bits => .ok (0x20 :: w8 bits)
  | .str s => .ok (0x30 :: s ++ [0x00])
  | .arr xs =>
    match encodeList xs with
    | .ok data => .ok (0x40 :: data ++ [0x00])
    | .error e => .error e
  | .obj ps =>
    match encodePairs ps with
    | .ok data => .ok (0x50 :: data ++ [0x00])
    | .error e => .error e
  | .undef => .error .typeErr

/-- The `for (let value of array)` loop of `encodeArray`. -/
def encodeList : JSList → Except EncErr (List Nat)
  | .nil => .ok []
  | .cons v rest =>
    match encodeValue v with
    | .ok bv =>
      match encodeList rest with
      | .ok br => .ok (bv ++ br)
      | .error e => .error e
    | .error e => .error e

/-- The `for (let key in object)` loop of `encodeObject`. -/
def encodePairs : JSPairs → Except EncErr (List Nat)
  | .nil => .ok []
  | .cons k v rest =>
    match encodeValue v with
    | .ok bv =>
      match encodePairs rest with
      | .ok br => .ok (k ++ [0x00] ++ bv ++ br)
      | .error e => .error e
    | .error e => .error e
end

/-- `encodeArray` from the source: concatenated child encodings wrapped in
tag `0x40` and terminator `0x00`. -/
def encodeArray (xs : JSList) : Except EncErr (List Nat) :=
  match encodeList xs with
  | .ok data => .ok (0x40 :: data ++ [0x00])
  | .error e => .error e

/-- `encodeObject` from the source: `(key ++ 0x00 ++ value)` pairs wrapped in
tag `0x50` and terminator `0x00`. -/
def encodeObject (ps : JSPairs) : Except EncErr (List Nat) :=
  match encodePairs ps with
  | .ok data => .ok (0x50 :: data ++ [0x00])
  | .error e => .error e

/-- `encodeValue` delegates arrays to `encodeArray`. -/
theorem encodeValue_arr (xs : JSList) : encodeValue (.arr xs) = encodeArray xs := rfl

/-- `encodeValue` delegates objects to `encodeObject`. -/
theorem encodeValue_obj (ps : JSPairs) : encodeValue (.obj ps) = encodeObject ps := rfl

/-- The magic header bytes `Buffer.from("BANUSAVE2")`. -/
def magicBytes : List Nat := [66, 65, 78, 85, 83, 65, 86, 69, 50]

/-- `encode` from the source: magic, then `gameId ++ 0x00 ++ encodeValue`,
then the SHA-256 of that body. The `assert(typeof game === "string")` always
passes here because the game id argument is a (byte-modelled) string by type.
No NUL check is performed on `game` — faithfully to the source. -/
def encode (value : JSValue) (game : List Nat) : Except EncErr (List Nat) :=
  match encodeValue value with
  | .ok ev => .ok (magicBytes ++ (game ++ 0x00 :: ev) ++ sha256 (game ++ 0x00 :: ev))
  | .error e => .error e

/-! ## The decoder (`decodeValue`, `decodeArray`, `decodeObject`, `decode`) -/

/-- Errors thrown while decoding. -/
inductive Err where

  /-- `"Invalid buffer length"`. -/
  | lengthErr

  /-- `"Invalid buffer header"`. -/
  | headerErr

  /-- `"Invalid buffer checksum"`. -/
  | checksumErr

  /-- `ERR_OUT_OF_RANGE` from a buffer read outside the bounds (including the
  `NaN` offsets that arise after an unknown-tag child, see `DVal.undef`). -/
  | rangeErr

  /-- Artifact of the fuel-indexed model only; the lemmas below show the fuel
  chosen by the wrappers never runs out on the buffers of any theorem. -/
  | fuelErr
  deriving DecidableEq

/-- `buffer.readUint8(i)`: the byte, or a thrown `ERR_OUT_OF_RANGE`. -/
def readU8 (d : List Nat) (i : Nat) : Except Err Nat :=
  match d[i]? with
  | some b => .ok b
  | none => .error .rangeErr

/-- The scan-to-NUL loops of the source (`for (...; data.readUint8(i) !== 0x00; i++)`):
the bytes before the first `0x00`, or the `ERR_OUT_OF_RANGE` thrown when the
scan runs off the end of the buffer. -/
def scanNul : List Nat → Except Err (List Nat)
  | [] => .error .rangeErr
  | b :: r =>
    if b = 0 then .ok []
    else
      match scanNul r with
      | .ok t => .ok (b :: t)
      | .error e => .error e

/-- Result of `decodeValue`: the decoded value with its consumed length, or
the `[undefined, undefined]` pair that the source returns when the tag byte
matches no `case` (both components stay `undefined`). -/
inductive DVal where
  | val (v : JSValue) (len : Nat)
  | undef
  deriving DecidableEq

/-- The first eight entries of a byte list as a big-endian 64-bit word
(`readBigInt64BE` / `readDoubleBE` payload). The callers check the length
first — the source read throws `ERR_OUT_OF_RANGE` before this computation
happens on a short buffer, so the catch-all is never reached there. -/
def be8 (l : List Nat) : Nat :=
  match l with
  | a :: b :: c :: d :: e :: f :: g :: h :: _ =>
    a * 72057594037927936 + b * 281474976710656 + c * 1099511627776 + d * 4294967296 +
    e * 16777216 + f * 65536 + g * 256 + h
  | _ => 0

/-- Signed reading of a 64-bit word (`readBigInt64BE`). -/
def sint64 (u : Nat) : Int :=
  if u < 9223372036854775808 then (u : Int) else (u : Int) - 18446744073709551616

/-- `array.push(value)`: append at the end. -/
def jappendL : JSList → JSValue → JSList
  | .nil, v => .cons v .nil
  | .cons x r, v => .cons x (jappendL r v)

/-- `object[key] = value` on a key not yet present: append the entry. On the
buffers of every theorem below the scanned keys are pairwise distinct within
one object, so appending is exactly the JavaScript insertion behavior. -/
def jappendP : JSPairs → List Nat → JSValue → JSPairs
  | .nil, k, v => .cons k v .nil
  | .cons k0 v0 r, k, v => .cons k0 v0 (jappendP r k v)

mutual

/-- `decodeValue` from the source, indexed by fuel (the mutual recursion of
the source terminates because each child consumes at least one byte; the fuel
makes that explicit so that every run is a kernel-computable function). -/
def decodeValueF : Nat → List Nat → Except Err DVal
  | 0, _ => .error .fuelErr
  | f + 1, data =>
    match readU8 data 0 with
    | .error e => .error e
    | .ok tag =>
      if tag = 0x00 then .ok (.val .null 1)
      else if tag = 0x01 then .ok (.val (.bool false) 1)
      else if tag = 0x02 then .ok (.val (.bool true) 1)
      else if tag = 0x10 then
        if data.length < 9 then .error .rangeErr
        else .ok (.val (.int (sint64 (be8 (data.drop 1)))) 9)
      else if tag = 0x20 then
        if data.length < 9 then .error .rangeErr
        else .ok (.val (.float (be8 (data.drop 1))) 9)
      else if tag = 0x30 then
        match scanNul (data.drop 1) with
        | .ok s => .ok (.val (.str s) (s.length + 2))
        | .error e => .error e
      else if tag = 0x40 then
        match decodeArrayF f (data.drop 1) 0 .nil with
        | .ok (xs, len) => .ok (.val (.arr xs) len)
        | .error e => .error e
      else if tag = 0x50 then
        match decodeObjectF f (data.drop 1) 0 .nil with
        | .ok (ps, len) => .ok (.val (.obj ps) len)
        | .error e => .error e
      else .ok DVal.undef

/-- The `while` loop of `decodeArray`. An `undef` child leaves `length`
`undefined`, so `offset += length` makes the offset `NaN` and the next
`readUint8(NaN)` throws `ERR_OUT_OF_RANGE`. -/
def decodeArrayF : Nat → List Nat → Nat → JSList → Except Err (JSList × Nat)
  | 0, _, _, _ => .error .fuelErr
  | f + 1, data, offset, acc =>
    match readU8 data offset with
    | .error e => .error e
    | .ok b =>
      if b = 0 then .ok (acc, offset + 2)
      else
        match decodeValueF f (data.drop offset) with
        | .ok (.val v len) => decodeArrayF f data (offset + len) (jappendL acc v)
        | .ok .undef => .error .rangeErr
        | .error e => .error e

/-- The `while` loop of `decodeObject`; same `NaN`-offset behavior as
`decodeArrayF` for an `undef` child value. -/
def decodeObjectF : Nat → List Nat → Nat → JSPairs → Except Err (JSPairs × Nat)
  | 0, _, _, _ => .error .fuelErr
  | f + 1, data, offset, acc =>
    match readU8 data offset with
    | .error e => .error e
    | .ok b =>
      if b = 0 then .ok (acc, offset + 2)
      else
        match scanNul (data.drop offset) with
        | .error e => .error e
        | .ok k =>
          match decodeValueF f (data.drop (offset + k.length + 1)) with
          | .ok (.val v len) => decodeObjectF f data (offset + k.length + 1 + len) (jappendP acc k v)
          | .ok .undef => .error .rangeErr
          | .error e => .error e
end

/-- Fuel used by the wrappers: generous enough for every theorem below (see
the fuel lemmas in the round-trip section). -/
def topFuel (d : List Nat) : Nat := 2 * d.length + 2

/-- `decodeValue` from the source (fuel instantiated by buffer size). -/
def decodeValue (d : List Nat) : Except Err DVal := decodeValueF (topFuel d) d

/-- `buffer.subarray(i, j)` (clamping, like the JavaScript method). -/
def subarr (b : List Nat) (i j : Nat) : List Nat := List.take (j - i) (List.drop i b)

/-- `decode` from the source: length check, magic check, checksum check (both
string-compared via `utf8Lossy`), game-id scan, then `decodeValue` on the
bytes between the game-id terminator and the checksum. The consumed length
reported by `decodeValue` is discarded (`[0]` in the source), and an
`undefined` value from an unknown tag is returned as a success. -/
def decode (b : List Nat) : Except Err (JSValue × List Nat) :=
  if b.length < 43 then .error .lengthErr
  else if utf8Lossy (List.take 9 b) = magicStr then
    if utf8Lossy (sha256 (subarr b 9 (b.length - 32))) = utf8Lossy (List.drop (b.length - 32) b) then
      match scanNul (List.drop 9 b) with
      | .error e => .error e
      | .ok g =>
        match decodeValue (subarr b (10 + g.length) (b.length - 32)) with
        | .error e => .error e
        | .ok (.val v _) => .ok (v, g)
        | .ok .undef => .ok (.undef, g)
    else .error .checksumErr
  else .error .headerErr

/-! ## Well-formed inputs

`nulFreeBytes` captures the byte lists that come from JavaScript strings
without embedded NUL (every byte is `1 .. 255`). `decodableV` marks the value
trees whose encodings the decoder can invert; beyond NUL-freedom (which the
spec demands anyway) it excludes the two shapes whose encodings collide with
the `0x00` end-marker scan — `null` directly inside an array, and an
empty-string object key — records the JavaScript invariants that object keys
are pairwise distinct and float bit patterns fit 64 bits, and contains no
`undef`. -/

/-- NUL-free byte string: every byte is in `1 .. 255`. -/
def nulFreeBytes (s : List Nat) : Bool := s.all (fun b => decide (0 < b) && decide (b < 256))

/-- `true` exactly on `JSValue.null`. -/
def isNull : JSValue → Bool
  | .null => true
  | _ => false

/-- Key lookup in an entry list. -/
def hasKeyP : JSPairs → List Nat → Bool
  | .nil, _ => false
  | .cons k0 _ r, k => decide (k0 = k) || hasKeyP r k

mutual

/-- Values whose encoding decodes back (see section comment). -/
def decodableV : JSValue → Bool
  | .null => true
  | .bool _ => true
  | .int _ => true
  | .float bits => decide (bits < 18446744073709551616)
  | .str s => nulFreeBytes s
  | .arr xs => decodableL xs
  | .obj ps => decodableP ps
  | .undef => false

/-- Array elements: no direct `null` (its `0x00` tag reads as the array
end-marker), children decodable. -/
def decodableL : JSList → Bool
  | .nil => true
  | .cons v rest => !isNull v && decodableV v && decodableL rest

/-- Object entries: keys non-empty (an empty key's terminator reads as the
object end-marker), NUL-free and distinct, values decodable. -/
def decodableP : JSPairs → Bool
  | .nil => true
  | .cons k v rest =>
    !k.isEmpty && nulFreeBytes k && !hasKeyP rest k && decodableV v && decodableP rest
end

mutual

/-- Fuel sufficient for `decodeValueF` on this value's encoding. -/
def fuelV : JSValue → Nat
  | .arr xs => 1 + fuelL xs
  | .obj ps => 1 + fuelP ps
  | _ => 1

/-- Fuel sufficient for the `decodeArrayF` loop over these elements. -/
def fuelL : JSList → Nat
  | .nil => 1
  | .cons v rest => 1 + max (fuelV v) (fuelL rest)

/-- Fuel sufficient for the `decodeObjectF` loop over these entries. -/
def fuelP : JSPairs → Nat
  | .nil => 1
  | .cons _ v rest => 1 + max (fuelV v) (fuelP rest)
end

/-- Concatenation of element lists. -/
def jcat : JSList → JSList → JSList
  | .nil, ys => ys
  | .cons x r, ys => .cons x (jcat r ys)

/-- Push all of `xs` onto `acc` in order (the repeated `array.push` of the
`decodeArray` loop). -/
def jappendAll : JSList → JSList → JSList
  | acc, .nil => acc
  | acc, .cons v r => jappendAll (jappendL acc v) r

/-- Concatenation of entry lists. -/
def pcat : JSPairs → JSPairs → JSPairs
  | .nil, ys => ys
  | .cons k v r, ys => .cons k v (pcat r ys)

/-- Insert all of `ps` at the end of `acc` in order. -/
def pappendAll : JSPairs → JSPairs → JSPairs
  | acc, .nil => acc
  | acc, .cons k v r => pappendAll (jappendP acc k v) r

theorem jappendL_eq_jcat : (acc : JSList) → ∀ v, jappendL acc v = jcat acc (.cons v .nil)
  | .nil => fun v => rfl
  | .cons x r => fun v => by simp [jappendL, jcat, jappendL_eq_jcat r]

theorem jcat_assoc : (a : JSList) → ∀ b c, jcat (jcat a b) c = jcat a (jcat b c)
  | .nil => fun b c => rfl
  | .cons x r => fun b c => by simp [jcat, jcat_assoc r]

theorem jcat_nil_right : (a : JSList) → jcat a .nil = a
  | .nil => rfl
  | .cons x r => by simp [jcat, jcat_nil_right r]

theorem jappendAll_eq_jcat : (xs : JSList) → ∀ acc, jappendAll acc xs = jcat acc xs
  | .nil => fun acc => (jcat_nil_right acc).symm
  | .cons v r => fun acc => by
    show jappendAll (jappendL acc v) r = jcat acc (.cons v r)
    rw [jappendAll_eq_jcat r, jappendL_eq_jcat, jcat_assoc]
    rfl

theorem jappendAll_nil (xs : JSList) : jappendAll .nil xs = xs := by
  rw [jappendAll_eq_jcat]
  rfl

theorem jappendP_eq_pcat : (acc : JSPairs) → ∀ k v, jappendP acc k v = pcat acc (.cons k v .nil)
  | .nil => fun k v => rfl
  | .cons k0 v0 r => fun k v => by simp [jappendP, pcat, jappendP_eq_pcat r]

theorem pcat_assoc : (a : JSPairs) → ∀ b c, pcat (pcat a b) c = pcat a (pcat b c)
  | .nil => fun b c => rfl
  | .cons k v r => fun b c => by simp [pcat, pcat_assoc r]

theorem pcat_nil_right : (a : JSPairs) → pcat a .nil = a
  | .nil => rfl
  | .cons k v r => by simp [pcat, pcat_nil_right r]

theorem pappendAll_eq_pcat : (ps : JSPairs) → ∀ acc, pappendAll acc ps = pcat acc ps
  | .nil => fun acc => (pcat_nil_right acc).symm
  | .cons k v r => fun acc => by
    show pappendAll (jappendP acc k v) r = pcat acc (.cons k v r)
    rw [pappendAll_eq_pcat r, jappendP_eq_pcat, pcat_assoc]
    rfl

theorem pappendAll_nil (ps : JSPairs) : pappendAll .nil ps = ps := by
  rw [pappendAll_eq_pcat]
  rfl

/-! ## Small facts about the encoder and the byte primitives -/

theorem w8_length (u : Nat) : (w8 u).length = 8 := rfl

/-- `be8` only looks at the first eight bytes. -/
theorem be8_explicit (a b c d e f g h : Nat) (s : List Nat) :
    be8 (a :: b :: c :: d :: e :: f :: g :: h :: s) =
      a * 72057594037927936 + b * 281474976710656 + c * 1099511627776 + d * 4294967296 +
      e * 16777216 + f * 65536 + g * 256 + h := rfl

/-- Reading back the big-endian bytes of a 64-bit word gives the word. -/
theorem be8_w8 (u : Nat) (hu : u < 18446744073709551616) (s : List Nat) :
    be8 (w8 u ++ s) = u := by
  show be8 (u / 4294967296 / 16777216 % 256 :: u / 4294967296 / 65536 % 256 ::
    u / 4294967296 / 256 % 256 :: u / 4294967296 % 256 ::
    u / 16777216 % 256 :: u / 65536 % 256 :: u / 256 % 256 :: u % 256 :: s) = u
  rw [be8_explicit]
  omega

/-- `readBigInt64BE` inverts `writeBigInt64BE` on the signed 64-bit range. -/
theorem sint64_be8_i64be (n : Int) (h1 : -9223372036854775808 ≤ n)
    (h2 : n < 9223372036854775808) (s : List Nat) :
    sint64 (be8 (i64be n ++ s)) = n := by
  unfold i64be
  rw [be8_w8 _ (by omega)]
  unfold sint64
  split_ifs <;> omega

theorem readU8_at_append (pre : List Nat) (x : Nat) (t : List Nat) :
    readU8 (pre ++ x :: t) pre.length = .ok x := by
  unfold readU8
  rw [List.getElem?_append_right (Nat.le_refl _)]
  simp

/-- The scan-to-NUL loop recovers a NUL-free prefix exactly. -/
theorem scanNul_prefix (g : List Nat) (hg : nulFreeBytes g = true) (t : List Nat) :
    scanNul (g ++ 0 :: t) = .ok g := by
  induction g with
  | nil => rfl
  | cons b r ih =>
    simp only [nulFreeBytes, List.all_cons, Bool.and_eq_true, decide_eq_true_eq] at hg
    have hb : ¬ b = 0 := by omega
    simp only [List.cons_append, scanNul, if_neg hb, List.append_eq]
    rw [ih hg.2]

/-- Every successful encoding is non-empty. -/
theorem encodeValue_length_pos (v : JSValue) (bs : List Nat) (h : encodeValue v = .ok bs) :
    1 ≤ bs.length := by
  cases v with
  | null => simp only [encodeValue, Except.ok.injEq] at h; subst h; simp
  | bool b => simp only [encodeValue, Except.ok.injEq] at h; subst h; simp
  | int n =>
    simp only [encodeValue] at h
    split_ifs at h
    simp only [Except.ok.injEq] at h
    subst h
    simp
  | float bits => simp only [encodeValue, Except.ok.injEq] at h; subst h; simp
  | str s => simp only [encodeValue, Except.ok.injEq] at h; subst h; simp
  | arr xs =>
    simp only [encodeValue] at h
    split at h
    · simp only [Except.ok.injEq] at h
      subst h
      simp
    · simp at h
  | obj ps =>
    simp only [encodeValue] at h
    split at h
    · simp only [Except.ok.injEq] at h
      subst h
      simp
    · simp at h
  | undef => simp [encodeValue] at h

/-- Encodings of non-`null` values start with a non-zero tag byte. -/
theorem encodeValue_head (v : JSValue) (bs : List Nat) (h : encodeValue v = .ok bs)
    (hn : isNull v = false) : ∃ tg bt, bs = tg :: bt ∧ tg ≠ 0 := by
  cases v with
  | null => simp [isNull] at hn
  | bool b =>
    simp only [encodeValue, Except.ok.injEq] at h
    subst h
    exact ⟨_, _, rfl, by cases b <;> simp⟩
  | int n =>
    simp only [encodeValue] at h
    split_ifs at h
    simp only [Except.ok.injEq] at h
    subst h
    exact ⟨_, _, rfl, by omega⟩
  | float bits =>
    simp only [encodeValue, Except.ok.injEq] at h
    subst h
    exact ⟨_, _, rfl, by omega⟩
  | str s =>
    simp only [encodeValue, Except.ok.injEq] at h
    subst h
    exact ⟨48, s ++ [0], by simp, by omega⟩
  | arr xs =>
    simp only [encodeValue] at h
    split at h
    · rename_i data hx
      simp only [Except.ok.injEq] at h
      subst h
      exact ⟨64, data ++ [0], by simp, by omega⟩
    · simp at h
  | obj ps =>
    simp only [encodeValue] at h
    split at h
    · rename_i data hx
      simp only [Except.ok.injEq] at h
      subst h
      exact ⟨80, data ++ [0], by simp, by omega⟩
    · simp at h
  | undef => simp [encodeValue] at h

/-- Inversion of the array-element loop of the encoder. -/
theorem encodeList_cons_inv (v : JSValue) (r : JSList) (bsl : List Nat)
    (h : encodeList (.cons v r) = .ok bsl) :
    ∃ bv br, encodeValue v = .ok bv ∧ encodeList r = .ok br ∧ bsl = bv ++ br := by
  simp only [encodeList] at h
  split at h
  · rename_i bv hv
    split at h
    · rename_i br hr
      simp only [Except.ok.injEq] at h
      exact ⟨bv, br, hv, hr, h.symm⟩
    · simp at h
  · simp at h

/-- Inversion of the object-entry loop of the encoder. -/
theorem encodePairs_cons_inv (k : List Nat) (v : JSValue) (r : JSPairs) (bsp : List Nat)
    (h : encodePairs (.cons k v r) = .ok bsp) :
    ∃ bv br, encodeValue v = .ok bv ∧ encodePairs r = .ok br ∧ bsp = k ++ 0 :: (bv ++ br) := by
  simp only [encodePairs] at h
  split at h
  · rename_i bv hv
    split at h
    · rename_i br hr
      simp only [Except.ok.injEq] at h
      exact ⟨bv, br, hv, hr, by rw [← h]; simp⟩
    · simp at h
  · simp at h

/-! ## Fuel bounds: the wrapper fuel `2 * length + 2` suffices on encodings -/

mutual
theorem fuelV_le : (v : JSValue) → ∀ bs, encodeValue v = .ok bs → fuelV v ≤ 2 * bs.length
  | .null => fun bs h => by
    have := encodeValue_length_pos _ _ h
    simp only [fuelV]
    omega
  | .bool b => fun bs h => by
    have := encodeValue_length_pos _ _ h
    simp only [fuelV]
    omega
  | .int n => fun bs h => by
    have := encodeValue_length_pos _ _ h
    simp only [fuelV]
    omega
  | .float bits => fun bs h => by
    have := encodeValue_length_pos _ _ h
    simp only [fuelV]
    omega
  | .str s => fun bs h => by
    have := encodeValue_length_pos _ _ h
    simp only [fuelV]
    omega
  | .arr xs => fun bs h => by
    simp only [encodeValue] at h
    split at h
    · rename_i data hx
      simp only [Except.ok.injEq] at h
      subst h
      have := fuelL_le xs data hx
      simp only [fuelV, List.length_append, List.length_cons]
      omega
    · simp at h
  | .obj ps => fun bs h => by
    simp only [encodeValue] at h
    split at h
    · rename_i data hx
      simp only [Except.ok.injEq] at h
      subst h
      have := fuelP_le ps data hx
      simp only [fuelV, List.length_append, List.length_cons]
      omega
    · simp at h
  | .undef => fun bs h => by simp [encodeValue] at h
theorem fuelL_le : (xs : JSList) → ∀ bsl, encodeList xs = .ok bsl → fuelL xs ≤ 2 * bsl.length + 1
  | .nil => fun bsl h => by simp [fuelL]
  | .cons v r => fun bsl h => by
    obtain ⟨bv, br, hv, hr, rfl⟩ := encodeList_cons_inv v r bsl h
    have h1 := fuelV_le v bv hv
    have h2 := fuelL_le r br hr
    have h3 := encodeValue_length_pos v bv hv
    simp only [fuelL, List.length_append]
    omega
theorem fuelP_le : (ps : JSPairs) → ∀ bsp, encodePairs ps = .ok bsp → fuelP ps ≤ 2 * bsp.length + 1
  | .nil => fun bsp h => by simp [fuelP]
  | .cons k v r => fun bsp h => by
    obtain ⟨bv, br, hv, hr, rfl⟩ := encodePairs_cons_inv k v r bsp h
    have h1 := fuelV_le v bv hv
    have h2 := fuelP_le r br hr
    have h3 := encodeValue_length_pos v bv hv
    simp only [fuelP, List.length_append, List.length_cons]
    omega
end

/-! ## One-step unfolding of `decodeValueF` by tag byte -/

theorem decodeValueF_tag0 (f : Nat) (rest : List Nat) :
    decodeValueF (f + 1) (0 :: rest) = .ok (.val .null 1) := by simp [decodeValueF, readU8]

theorem decodeValueF_tag1 (f : Nat) (rest : List Nat) :
    decodeValueF (f + 1) (1 :: rest) = .ok (.val (.bool false) 1) := by simp [decodeValueF, readU8]

theorem decodeValueF_tag2 (f : Nat) (rest : List Nat) :
    decodeValueF (f + 1) (2 :: rest) = .ok (.val (.bool true) 1) := by simp [decodeValueF, readU8]

theorem decodeValueF_tag16 (f : Nat) (rest : List Nat) :
    decodeValueF (f + 1) (16 :: rest) =
      if (16 :: rest).length < 9 then .error .rangeErr
      else .ok (.val (.int (sint64 (be8 rest))) 9) := by simp [decodeValueF, readU8]

theorem decodeValueF_tag32 (f : Nat) (rest : List Nat) :
    decodeValueF (f + 1) (32 :: rest) =
      if (32 :: rest).length < 9 then .error .rangeErr
      else .ok (.val (.float (be8 rest)) 9) := by simp [decodeValueF, readU8]

theorem decodeValueF_tag48 (f : Nat) (rest : List Nat) :
    decodeValueF (f + 1) (48 :: rest) =
      match scanNul rest with
      | .ok s => .ok (.val (.str s) (s.length + 2))
      | .error e => .error e := by simp [decodeValueF, readU8]

theorem decodeValueF_tag64 (f : Nat) (rest : List Nat) :
    decodeValueF (f + 1) (64 :: rest) =
      match decodeArrayF f rest 0 .nil with
      | .ok (xs, len) => .ok (.val (.arr xs) len)
      | .error e => .error e := by simp [decodeValueF, readU8]

theorem decodeValueF_tag80 (f : Nat) (rest : List Nat) :
    decodeValueF (f + 1) (80 :: rest) =
      match decodeObjectF f rest 0 .nil with
      | .ok (ps, len) => .ok (.val (.obj ps) len)
      | .error e => .error e := by simp [decodeValueF, readU8]

theorem i64be_length (n : Int) : (i64be n).length = 8 := rfl

/-! ## The decoder inverts the encoder

The statement carries an arbitrary suffix `s`: a value decode consumes
exactly its own encoding and never looks past it, so later siblings (and the
envelope's trailing checksum) are untouched. -/

mutual
theorem decodeValueF_enc : (v : JSValue) → ∀ f bs s, encodeValue v = .ok bs →
    decodableV v = true → fuelV v ≤ f →
    decodeValueF f (bs ++ s) = .ok (.val v bs.length)
  | .null => fun f bs s h hd hf => by
    simp only [encodeValue, Except.ok.injEq] at h
    subst h
    cases f with
    | zero => simp [fuelV] at hf
    | succ f2 => simp [decodeValueF_tag0]
  | .bool b => fun f bs s h hd hf => by
    simp only [encodeValue, Except.ok.injEq] at h
    subst h
    cases f with
    | zero => simp [fuelV] at hf
    | succ f2 => cases b <;> simp [decodeValueF_tag1, decodeValueF_tag2]
  | .int n => fun f bs s h hd hf => by
    simp only [encodeValue] at h
    split_ifs at h with hr
    simp only [Except.ok.injEq] at h
    subst h
    cases f with
    | zero => simp [fuelV] at hf
    | succ f2 =>
      have e : (0x10 :: i64be n) ++ s = 16 :: (i64be n ++ s) := by simp
      rw [e, decodeValueF_tag16, if_neg (by simp [i64be_length]),
        sint64_be8_i64be n hr.1 hr.2]
      simp [i64be_length]
  | .float bits => fun f bs s h hd hf => by
    simp only [encodeValue, Except.ok.injEq] at h
    subst h
    simp only [decodableV, decide_eq_true_eq] at hd
    cases f with
    | zero => simp [fuelV] at hf
    | succ f2 =>
      have e : (0x20 :: w8 bits) ++ s = 32 :: (w8 bits ++ s) := by simp
      rw [e, decodeValueF_tag32, if_neg (by simp [w8_length]), be8_w8 bits hd]
      simp [w8_length]
  | .str s2 => fun f bs s h hd hf => by
    simp only [encodeValue, Except.ok.injEq] at h
    subst h
    simp only [decodableV] at hd
    cases f with
    | zero => simp [fuelV] at hf
    | succ f2 =>
      have e : (0x30 :: s2 ++ [0x00]) ++ s = 48 :: (s2 ++ 0 :: s) := by simp
      rw [e, decodeValueF_tag48, scanNul_prefix s2 hd s]
      simp
  | .arr xs => fun f bs s h hd hf => by
    simp only [encodeValue] at h
    split at h
    · rename_i data hx
      simp only [Except.ok.injEq] at h
      subst h
      simp only [decodableV] at hd
      cases f with
      | zero => simp [fuelV] at hf
      | succ f2 =>
        have e : (0x40 :: data ++ [0x00]) ++ s = 64 :: (data ++ 0 :: s) := by simp
        rw [e, decodeValueF_tag64]
        have hloop := decodeArrayF_enc xs f2 data hx hd
          (by simp only [fuelV] at hf; omega) [] s .nil
        simp only [List.nil_append, List.length_nil, Nat.zero_add] at hloop
        rw [hloop, jappendAll_nil]
        simp
    · simp at h
  | .obj ps => fun f bs s h hd hf => by
    simp only [encodeValue] at h
    split at h
    · rename_i data hx
      simp only [Except.ok.injEq] at h
      subst h
      simp only [decodableV] at hd
      cases f with
      | zero => simp [fuelV] at hf
      | succ f2 =>
        have e : (0x50 :: data ++ [0x00]) ++ s = 80 :: (data ++ 0 :: s) := by simp
        rw [e, decodeValueF_tag80]
        have hloop := decodeObjectF_enc ps f2 data hx hd
          (by simp only [fuelV] at hf; omega) [] s .nil
        simp only [List.nil_append, List.length_nil, Nat.zero_add] at hloop
        rw [hloop, pappendAll_nil]
        simp
    · simp at h
  | .undef => fun f bs s h hd hf => by simp [encodeValue] at h
theorem decodeArrayF_enc : (xs : JSList) → ∀ f bsl, encodeList xs = .ok bsl →
    decodableL xs = true → fuelL xs ≤ f →
    ∀ (pre post : List Nat) (acc : JSList),
      decodeArrayF f (pre ++ (bsl ++ 0 :: post)) pre.length acc =
        .ok (jappendAll acc xs, pre.length + bsl.length + 2)
  | .nil => fun f bsl h hd hf pre post acc => by
    simp only [encodeList, Except.ok.injEq] at h
    subst h
    cases f with
    | zero => simp [fuelL] at hf
    | succ f2 =>
      simp only [decodeArrayF, List.nil_append, readU8_at_append]
      simp [jappendAll]
  | .cons v r => fun f bsl h hd hf pre post acc => by
    obtain ⟨bv, br, hv, hr, rfl⟩ := encodeList_cons_inv v r bsl h
    simp only [decodableL, Bool.and_eq_true, Bool.not_eq_true'] at hd
    obtain ⟨⟨hnv, hdv⟩, hdr⟩ := hd
    obtain ⟨tg, bt, rfl, htg⟩ := encodeValue_head v bv hv hnv
    cases f with
    | zero => simp [fuelL] at hf
    | succ f2 =>
      have hfv : fuelV v ≤ f2 := by simp only [fuelL] at hf; omega
      have hfr : fuelL r ≤ f2 := by simp only [fuelL] at hf; omega
      have hshape : pre ++ (((tg :: bt) ++ br) ++ 0 :: post) =
          pre ++ tg :: (bt ++ (br ++ 0 :: post)) := by simp
      rw [hshape]
      simp only [decodeArrayF, readU8_at_append]
      rw [if_neg htg]
      have hdrop : (pre ++ tg :: (bt ++ (br ++ 0 :: post))).drop pre.length =
          (tg :: bt) ++ (br ++ 0 :: post) := by
        rw [show pre ++ tg :: (bt ++ (br ++ 0 :: post)) =
          pre ++ ((tg :: bt) ++ (br ++ 0 :: post)) by simp]
        exact List.drop_left pre _
      simp only [hdrop, decodeValueF_enc v f2 (tg :: bt) (br ++ 0 :: post) hv hdv hfv]
      have hrec := decodeArrayF_enc r f2 br hr hdr hfr (pre ++ tg :: bt) post (jappendL acc v)
      rw [show (pre ++ tg :: bt) ++ (br ++ 0 :: post) =
        pre ++ tg :: (bt ++ (br ++ 0 :: post)) by simp] at hrec
      rw [show (pre ++ tg :: bt).length = pre.length + (tg :: bt).length from
        List.length_append pre (tg :: bt)] at hrec
      rw [hrec]
      simp only [Except.ok.injEq, Prod.mk.injEq]
      constructor
      · rfl
      · simp only [List.length_append, List.length_cons]
        omega
theorem decodeObjectF_enc : (ps : JSPairs) → ∀ f bsp, encodePairs ps = .ok bsp →
    decodableP ps = true → fuelP ps ≤ f →
    ∀ (pre post : List Nat) (acc : JSPairs),
      decodeObjectF f (pre ++ (bsp ++ 0 :: post)) pre.length acc =
        .ok (pappendAll acc ps, pre.length + bsp.length + 2)
  | .nil => fun f bsp h hd hf pre post acc => by
    simp only [encodePairs, Except.ok.injEq] at h
    subst h
    cases f with
    | zero => simp [fuelP] at hf
    | succ f2 =>
      simp only [decodeObjectF, List.nil_append, readU8_at_append]
      simp [pappendAll]
  | .cons k v r => fun f bsp h hd hf pre post acc => by
    obtain ⟨bv, br, hv, hr, rfl⟩ := encodePairs_cons_inv k v r bsp h
    simp only [decodableP, Bool.and_eq_true, Bool.not_eq_true'] at hd
    obtain ⟨⟨⟨⟨hke, hknf⟩, hkd⟩, hdv⟩, hdr⟩ := hd
    cases f with
    | zero => simp [fuelP] at hf
    | succ f2 =>
      have hfv : fuelV v ≤ f2 := by simp only [fuelP] at hf; omega
      have hfr : fuelP r ≤ f2 := by simp only [fuelP] at hf; omega
      obtain ⟨kh, kt, rfl⟩ : ∃ kh kt, k = kh :: kt := by
        cases k with
        | nil => simp at hke
        | cons kh kt => exact ⟨kh, kt, rfl⟩
      have hkh : ¬ kh = 0 := by
        simp only [nulFreeBytes, List.all_cons, Bool.and_eq_true, decide_eq_true_eq] at hknf
        omega
      have hshape : pre ++ (((kh :: kt) ++ 0 :: (bv ++ br)) ++ 0 :: post) =
          pre ++ kh :: (kt ++ 0 :: (bv ++ (br ++ 0 :: post))) := by simp
      rw [hshape]
      simp only [decodeObjectF, readU8_at_append]
      rw [if_neg hkh]
      have hdrop : (pre ++ kh :: (kt ++ 0 :: (bv ++ (br ++ 0 :: post)))).drop pre.length =
          (kh :: kt) ++ 0 :: (bv ++ (br ++ 0 :: post)) := by
        rw [show pre ++ kh :: (kt ++ 0 :: (bv ++ (br ++ 0 :: post))) =
          pre ++ ((kh :: kt) ++ 0 :: (bv ++ (br ++ 0 :: post))) by simp]
        exact List.drop_left pre _
      have hdrop2 : (pre ++ kh :: (kt ++ 0 :: (bv ++ (br ++ 0 :: post)))).drop
          (pre.length + (kh :: kt).length + 1) = bv ++ (br ++ 0 :: post) := by
        rw [show pre ++ kh :: (kt ++ 0 :: (bv ++ (br ++ 0 :: post))) =
          (pre ++ (kh :: kt) ++ [0]) ++ (bv ++ (br ++ 0 :: post)) by simp]
        rw [show pre.length + (kh :: kt).length + 1 = (pre ++ (kh :: kt) ++ [0]).length by
          simp only [List.length_append, List.length_cons, List.length_nil]]
        exact List.drop_left _ _
      simp only [hdrop, scanNul_prefix (kh :: kt) hknf _, hdrop2,
        decodeValueF_enc v f2 bv (br ++ 0 :: post) hv hdv hfv]
      have hrec := decodeObjectF_enc r f2 br hr hdr hfr
        (pre ++ (kh :: kt) ++ [0] ++ bv) post (jappendP acc (kh :: kt) v)
      rw [show (pre ++ (kh :: kt) ++ [0] ++ bv) ++ (br ++ 0 :: post) =
        pre ++ kh :: (kt ++ 0 :: (bv ++ (br ++ 0 :: post))) by simp] at hrec
      have hlen : (pre ++ (kh :: kt) ++ [0] ++ bv).length =
          pre.length + (kh :: kt).length + 1 + bv.length := by
        simp only [List.length_append, List.length_cons, List.length_nil]
      rw [hlen] at hrec
      rw [hrec]
      simp only [Except.ok.injEq, Prod.mk.injEq]
      constructor
      · rfl
      · simp only [List.length_append, List.length_cons]
        omega
end

/-! ## Envelope round-trip -/

theorem magicBytes_length : magicBytes.length = 9 := rfl

/-- `take` with any amount provably equal to the left part's length. -/
theorem take_exact_append (A B : List Nat) (n : Nat) (h : n = A.length) :
    (A ++ B).take n = A := by
  subst h
  exact List.take_left A B

/-- `drop` with any amount provably equal to the left part's length. -/
theorem drop_exact_append (A B : List Nat) (n : Nat) (h : n = A.length) :
    (A ++ B).drop n = B := by
  subst h
  exact List.drop_left A B

/-- `decode` inverts the envelope construction of `encode`, for decodable
values and NUL-free game ids, with arbitrary `junk` allowed between the value
and the checksum (the source never compares the consumed length against the
body length, so such bytes are silently ignored). -/
theorem decode_body (v : JSValue) (g bs junk : List Nat)
    (he : encodeValue v = .ok bs) (hd : decodableV v = true) (hg : nulFreeBytes g = true) :
    decode (magicBytes ++ (g ++ 0 :: (bs ++ junk)) ++ sha256 (g ++ 0 :: (bs ++ junk))) =
      .ok (v, g) := by
  have hbs1 := encodeValue_length_pos v bs he
  have hdig : (sha256 (g ++ 0 :: (bs ++ junk))).length = 32 := sha256_length _
  have hblen : (magicBytes ++ (g ++ 0 :: (bs ++ junk)) ++
      sha256 (g ++ 0 :: (bs ++ junk))).length = g.length + bs.length + junk.length + 42 := by
    simp only [List.length_append, List.length_cons, hdig, magicBytes_length]
    omega
  have hbodylen : (g ++ 0 :: (bs ++ junk)).length = g.length + bs.length + junk.length + 1 := by
    simp only [List.length_append, List.length_cons]
    omega
  unfold decode
  rw [if_neg (by rw [hblen]; omega)]
  have htake9 : List.take 9 (magicBytes ++ (g ++ 0 :: (bs ++ junk)) ++
      sha256 (g ++ 0 :: (bs ++ junk))) = magicBytes := by
    rw [List.append_assoc]
    exact List.take_left magicBytes _
  rw [htake9, if_pos (show utf8Lossy magicBytes = magicStr from rfl)]
  have hsub : subarr (magicBytes ++ (g ++ 0 :: (bs ++ junk)) ++
      sha256 (g ++ 0 :: (bs ++ junk))) 9 ((magicBytes ++ (g ++ 0 :: (bs ++ junk)) ++
      sha256 (g ++ 0 :: (bs ++ junk))).length - 32) = g ++ 0 :: (bs ++ junk) := by
    unfold subarr
    rw [hblen]
    rw [List.append_assoc]
    rw [show List.drop 9 (magicBytes ++ ((g ++ 0 :: (bs ++ junk)) ++
      sha256 (g ++ 0 :: (bs ++ junk)))) = (g ++ 0 :: (bs ++ junk)) ++
      sha256 (g ++ 0 :: (bs ++ junk)) from List.drop_left magicBytes _]
    rw [show g.length + bs.length + junk.length + 42 - 32 - 9 =
      (g ++ 0 :: (bs ++ junk)).length from by rw [hbodylen]; omega]
    exact List.take_left _ _
  rw [hsub]
  have hdrop32 : List.drop ((magicBytes ++ (g ++ 0 :: (bs ++ junk)) ++
      sha256 (g ++ 0 :: (bs ++ junk))).length - 32) (magicBytes ++ (g ++ 0 :: (bs ++ junk)) ++
      sha256 (g ++ 0 :: (bs ++ junk))) = sha256 (g ++ 0 :: (bs ++ junk)) := by
    rw [hblen]
    rw [show g.length + bs.length + junk.length + 42 - 32 =
      (magicBytes ++ (g ++ 0 :: (bs ++ junk))).length from by
        simp only [List.length_append, magicBytes_length, hbodylen]
        omega]
    exact List.drop_left _ _
  rw [hdrop32, if_pos rfl]
  have hdrop9 : List.drop 9 (magicBytes ++ (g ++ 0 :: (bs ++ junk)) ++
      sha256 (g ++ 0 :: (bs ++ junk))) = g ++ 0 :: ((bs ++ junk) ++
      sha256 (g ++ 0 :: (bs ++ junk))) := by
    rw [List.append_assoc]
    rw [show List.drop 9 (magicBytes ++ ((g ++ 0 :: (bs ++ junk)) ++
      sha256 (g ++ 0 :: (bs ++ junk)))) = (g ++ 0 :: (bs ++ junk)) ++
      sha256 (g ++ 0 :: (bs ++ junk)) from List.drop_left magicBytes _]
    simp
  have hval : subarr (magicBytes ++ (g ++ 0 :: (bs ++ junk)) ++
      sha256 (g ++ 0 :: (bs ++ junk))) (10 + g.length) ((magicBytes ++ (g ++ 0 :: (bs ++ junk)) ++
      sha256 (g ++ 0 :: (bs ++ junk))).length - 32) = bs ++ junk := by
    unfold subarr
    rw [show magicBytes ++ (g ++ 0 :: (bs ++ junk)) ++ sha256 (g ++ 0 :: (bs ++ junk)) =
      (magicBytes ++ g ++ [0]) ++ ((bs ++ junk) ++ sha256 (g ++ 0 :: (bs ++ junk))) by simp]
    rw [show 10 + g.length = (magicBytes ++ g ++ [0]).length from by
      simp only [List.length_append, magicBytes_length, List.length_cons, List.length_nil]
      omega]
    rw [List.drop_left]
    exact take_exact_append (bs ++ junk) _ _ (by
      simp only [List.length_append, magicBytes_length, List.length_cons, List.length_nil, hdig]
      omega)
  simp only [hdrop9, scanNul_prefix g hg, hval]
  unfold decodeValue topFuel
  simp only [decodeValueF_enc v (2 * (bs ++ junk).length + 2) bs junk he hd (by
    have := fuelV_le v bs he
    simp only [List.length_append]
    omega)]


/-! ## Shared decode-failure helpers -/

/-- Step 1 of `decode`: undersized buffers are rejected. -/
theorem decode_short (b : List Nat) (h : b.length < 43) : decode b = .error .lengthErr := by
  unfold decode
  rw [if_pos h]

/-- Step 2 of `decode`: a first-nine-bytes mismatch is rejected (byte-level,
via the injectivity of the lossy decoding on the ASCII magic). -/
theorem decode_bad_magic (b : List Nat) (h1 : ¬ b.length < 43)
    (h2 : List.take 9 b ≠ magicBytes) : decode b = .error .headerErr := by
  unfold decode
  rw [if_neg h1, if_neg (fun hc => h2 (utf8Lossy_magic _ hc))]

/-- Step 3 of `decode`: a checksum mismatch (as compared through `toString`)
is rejected before any TLV decoding is attempted. -/
theorem decode_checksum_mismatch (b : List Nat) (h1 : ¬ b.length < 43)
    (h2 : List.take 9 b = magicBytes)
    (h3 : utf8Lossy (sha256 (subarr b 9 (b.length - 32))) ≠
      utf8Lossy (List.drop (b.length - 32) b)) :
    decode b = .error .checksumErr := by
  unfold decode
  rw [if_neg h1, if_pos (by rw [h2]; rfl), if_neg h3]

/-! ## Values containing an unsupported dynamic type -/

mutual

/-- A value with an unsupported `typeof` (`undefined`, function, symbol)
somewhere inside. -/
def hasUndefV : JSValue → Bool
  | .undef => true
  | .arr xs => hasUndefL xs
  | .obj ps => hasUndefP ps
  | _ => false
def hasUndefL : JSList → Bool
  | .nil => false
  | .cons v r => hasUndefV v || hasUndefL r
def hasUndefP : JSPairs → Bool
  | .nil => false
  | .cons _ v r => hasUndefV v || hasUndefP r
end

mutual
theorem encodeValue_error_of_undef : (v : JSValue) → hasUndefV v = true →
    ∃ e, encodeValue v = .error e
  | .null => fun h => by simp [hasUndefV] at h
  | .bool b => fun h => by simp [hasUndefV] at h
  | .int n => fun h => by simp [hasUndefV] at h
  | .float bits => fun h => by simp [hasUndefV] at h
  | .str s => fun h => by simp [hasUndefV] at h
  | .arr xs => fun h => by
    obtain ⟨e, he⟩ := encodeList_error_of_undef xs (by simpa [hasUndefV] using h)
    exact ⟨e, by simp [encodeValue, he]⟩
  | .obj ps => fun h => by
    obtain ⟨e, he⟩ := encodePairs_error_of_undef ps (by simpa [hasUndefV] using h)
    exact ⟨e, by simp [encodeValue, he]⟩
  | .undef => fun h => ⟨.typeErr, rfl⟩
theorem encodeList_error_of_undef : (xs : JSList) → hasUndefL xs = true →
    ∃ e, encodeList xs = .error e
  | .nil => fun h => by simp [hasUndefL] at h
  | .cons v r => fun h => by
    rcases hv : encodeValue v with e | bv
    · exact ⟨e, by simp [encodeList, hv]⟩
    · simp only [hasUndefL, Bool.or_eq_true] at h
      cases h with
      | inl hLV =>
        obtain ⟨e2, he2⟩ := encodeValue_error_of_undef v hLV
        rw [hv] at he2
        exact absurd he2 (by simp)
      | inr hLr =>
        obtain ⟨e2, he2⟩ := encodeList_error_of_undef r hLr
        exact ⟨e2, by simp [encodeList, hv, he2]⟩
theorem encodePairs_error_of_undef : (ps : JSPairs) → hasUndefP ps = true →
    ∃ e, encodePairs ps = .error e
  | .nil => fun h => by simp [hasUndefP] at h
  | .cons k v r => fun h => by
    rcases hv : encodeValue v with e | bv
    · exact ⟨e, by simp [encodePairs, hv]⟩
    · simp only [hasUndefP, Bool.or_eq_true] at h
      cases h with
      | inl hLV =>
        obtain ⟨e2, he2⟩ := encodeValue_error_of_undef v hLV
        rw [hv] at he2
        exact absurd he2 (by simp)
      | inr hLr =>
        obtain ⟨e2, he2⟩ := encodePairs_error_of_undef r hLr
        exact ⟨e2, by simp [encodePairs, hv, he2]⟩
end

/-! ## Claim C1 — round-trip -/

/-- C1, counterexample. The claim quantifies over every NUL-free value, but a
`null` directly inside an array does not survive: its `0x00` tag byte is read
as the array end-marker, so `decode (encode [null] "g")` returns `([], "g")`,
not `([null], "g")`. (The format itself is ambiguous: `encode` maps `[[null]]`
and `[[], null]` to the same bytes.) -/
theorem claim1_counterexample :
    encode (.arr (.cons .null .nil)) [103] = .ok [66, 65, 78, 85, 83, 65, 86, 69, 50, 103, 0, 64, 0, 0, 213, 15, 195, 238, 37, 0, 149, 24, 116, 34, 30, 94, 173, 205, 188, 46, 27, 25, 118, 234, 115, 175, 83, 218, 144, 188, 194, 21, 38, 8, 14, 21] ∧
    decode [66, 65, 78, 85, 83, 65, 86, 69, 50, 103, 0, 64, 0, 0, 213, 15, 195, 238, 37, 0, 149, 24, 116, 34, 30, 94, 173, 205, 188, 46, 27, 25, 118, 234, 115, 175, 83, 218, 144, 188, 194, 21, 38, 8, 14, 21] = .ok (.arr .nil, [103]) ∧
    (JSValue.arr .nil, ([103] : List Nat)) ≠ (JSValue.arr (.cons .null .nil), [103]) :=
  ⟨rfl, rfl, by decide⟩

/-- C1, amended: for every decodable value (NUL-free strings and keys, keys
non-empty and distinct, no `null` directly inside an array, no `undefined`)
and NUL-free game id, `decode (encode v g) = (v, g)` — integers to equal
bigints, float bit patterns exactly, strings byte-for-byte, arrays in order,
objects preserving keys and insertion order. -/
theorem claim1_roundtrip (v : JSValue) (g bs B : List Nat)
    (he : encodeValue v = .ok bs) (hd : decodableV v = true)
    (hg : nulFreeBytes g = true) (hB : encode v g = .ok B) :
    decode B = .ok (v, g) := by
  unfold encode at hB
  rw [he] at hB
  simp only [Except.ok.injEq] at hB
  subst hB
  have := decode_body v g bs [] he hd hg
  simpa using this

/-- C1, witness: `decode (encode null "g") = (null, "g")` on the concrete
encoded buffer. -/
theorem claim1_roundtrip_witness : decode [66, 65, 78, 85, 83, 65, 86, 69, 50, 103, 0, 0, 195, 153, 144, 148, 106, 165, 172, 80, 47, 79, 145, 241, 243, 88, 105, 225, 195, 153, 68, 91, 3, 142, 24, 44, 84, 109, 185, 186, 120, 18, 19, 13] = .ok (.null, [103]) :=
  claim1_roundtrip .null [103] [0] [66, 65, 78, 85, 83, 65, 86, 69, 50, 103, 0, 0, 195, 153, 144, 148, 106, 165, 172, 80, 47, 79, 145, 241, 243, 88, 105, 225, 195, 153, 68, 91, 3, 142, 24, 44, 84, 109, 185, 186, 120, 18, 19, 13] rfl rfl rfl rfl

/-! ## Claim C2 — NUL rejection -/

/-- C2: the code does not reject embedded NUL bytes. `encode "x\0y" "g"`
succeeds and the embedded NUL then terminates the string early on decode
(silent truncation to `"x"`); `encode null "a\0b"` also succeeds and decodes
with game id truncated to `"a"` and the value mangled to `undefined`. The
spec requires an input-validation failure in both cases. -/
theorem claim2_nul_not_rejected :
    encode (.str [120, 0, 121]) [103] = .ok [66, 65, 78, 85, 83, 65, 86, 69, 50, 103, 0, 48, 120, 0, 121, 0, 184, 36, 89, 226, 213, 248, 7, 0, 95, 27, 94, 77, 144, 65, 106, 56, 197, 91, 231, 229, 95, 251, 133, 54, 167, 157, 236, 58, 252, 204, 85, 222] ∧
    decode [66, 65, 78, 85, 83, 65, 86, 69, 50, 103, 0, 48, 120, 0, 121, 0, 184, 36, 89, 226, 213, 248, 7, 0, 95, 27, 94, 77, 144, 65, 106, 56, 197, 91, 231, 229, 95, 251, 133, 54, 167, 157, 236, 58, 252, 204, 85, 222] = .ok (.str [120], [103]) ∧
    encode .null [97, 0, 98] = .ok [66, 65, 78, 85, 83, 65, 86, 69, 50, 97, 0, 98, 0, 0, 136, 16, 231, 248, 84, 31, 223, 182, 221, 70, 165, 248, 65, 79, 210, 230, 56, 67, 43, 172, 24, 29, 166, 21, 169, 173, 41, 58, 222, 230, 117, 226] ∧
    decode [66, 65, 78, 85, 83, 65, 86, 69, 50, 97, 0, 98, 0, 0, 136, 16, 231, 248, 84, 31, 223, 182, 221, 70, 165, 248, 65, 79, 210, 230, 56, 67, 43, 172, 24, 29, 166, 21, 169, 173, 41, 58, 222, 230, 117, 226] = .ok (.undef, [97]) :=
  ⟨rfl, rfl, rfl, rfl⟩

/-! ## Claim C3 — the three decode checks and their order -/

/-- C3, counterexample. The checksum comparison happens on `toString` results,
not bytes: this 43-byte buffer's last 32 bytes differ from the SHA-256 of its
body (first byte `0x80` instead of `0x96`, both lone UTF-8 continuation bytes
that decode to U+FFFD), yet `decode` accepts it and returns `(null, "")`. -/
theorem claim3_counterexample :
    sha256 [0, 0] ≠ [128, 162, 150, 210, 36, 242, 133, 198, 123, 238, 147, 195, 15, 138, 48, 145, 87, 240, 218, 163, 93, 197, 184, 126, 65, 11, 120, 99, 10, 9, 207, 199] ∧
    utf8Lossy (sha256 [0, 0]) = utf8Lossy [128, 162, 150, 210, 36, 242, 133, 198, 123, 238, 147, 195, 15, 138, 48, 145, 87, 240, 218, 163, 93, 197, 184, 126, 65, 11, 120, 99, 10, 9, 207, 199] ∧
    decode [66, 65, 78, 85, 83, 65, 86, 69, 50, 0, 0, 128, 162, 150, 210, 36, 242, 133, 198, 123, 238, 147, 195, 15, 138, 48, 145, 87, 240, 218, 163, 93, 197, 184, 126, 65, 11, 120, 99, 10, 9, 207, 199] = .ok (.null, []) :=
  ⟨by decide, rfl, rfl⟩

/-- C3, amended: decode fails with the length error when the buffer is
shorter than 43 bytes; otherwise with the header error when the first 9 bytes
differ from ASCII `BANUSAVE2`; otherwise with the checksum error when the
SHA-256 of `bytes[9..len-32]` and the last 32 bytes differ *as lossy-UTF-8
strings* (the source compares `toString()` results, so byte differences
within invalid UTF-8 that decode to identical replacement text are not
detected — see the counterexample); the checks run in that order, so a
checksum failure is reported before any TLV decoding is attempted. -/
theorem claim3_checks_in_order (b : List Nat) :
    (b.length < 43 → decode b = .error .lengthErr) ∧
    (¬ b.length < 43 → List.take 9 b ≠ magicBytes → decode b = .error .headerErr) ∧
    (¬ b.length < 43 → List.take 9 b = magicBytes →
      utf8Lossy (sha256 (subarr b 9 (b.length - 32))) ≠
        utf8Lossy (List.drop (b.length - 32) b) →
      decode b = .error .checksumErr) :=
  ⟨decode_short b, decode_bad_magic b, decode_checksum_mismatch b⟩

/-- C3, witness: a 10-byte buffer fails the length check. -/
theorem claim3_checks_witness : decode (List.replicate 10 0) = .error .lengthErr :=
  (claim3_checks_in_order (List.replicate 10 0)).1 (by decide)

/-! ## Claim C4 — value-level round-trip with exact consumed length -/

/-- C4, counterexample: `decodeValue` on the encoding of `[null]` stops at the
null element's tag, returning `([], 2)` instead of `([null], 3)`. -/
theorem claim4_counterexample :
    encodeValue (.arr (.cons .null .nil)) = .ok [64, 0, 0] ∧
    decodeValue [64, 0, 0] = .ok (.val (.arr .nil) 2) ∧
    decodeValue [64, 0, 0] ≠ .ok (.val (.arr (.cons .null .nil)) 3) :=
  ⟨rfl, rfl, by decide⟩

/-- C4, amended: for decodable values (see C1) and any trailing suffix `s`,
`decodeValue (encodeValue v ++ s)` returns `v` together with the exact byte
length of `encodeValue v` — strings report terminator position + 1, integers
and floats report 9, arrays and objects tag + children + terminator — so
sibling decoding advances by exactly the consumed amount. -/
theorem claim4_value_roundtrip (v : JSValue) (bs s : List Nat)
    (he : encodeValue v = .ok bs) (hd : decodableV v = true) :
    decodeValue (bs ++ s) = .ok (.val v bs.length) := by
  unfold decodeValue topFuel
  exact decodeValueF_enc v _ bs s he hd (by
    have := fuelV_le v bs he
    simp only [List.length_append]
    omega)

/-- C4, witness: the string `"A"` with a trailing junk byte. -/
theorem claim4_value_roundtrip_witness :
    decodeValue [48, 65, 0, 9] = .ok (.val (.str [65]) 3) :=
  claim4_value_roundtrip (.str [65]) [48, 65, 0] [9] rfl rfl

/-! ## Claim C5 — truncation safety -/

/-- C5, counterexample. Truncation is not always detected, even for inputs a
JavaScript caller can actually pass to `encode`. The value here is the plain
array `["0000", null, 646278534932726083n, -3827949281889114684n,
5233687657824805157n, -6166252423496897044n]`: a four-character ASCII string
(valid UTF-8, no NUL bytes), `null`, and four bigints within the
`writeBigInt64BE` range, so the 87-byte buffer on the right is the real
program's output for `encode(value, "")`. A bigint's eight payload bytes are
unconstrained on the wire, which lets the payloads be chosen (by searching
over the string and the first payload bytes) so that bytes 22–53 of the
buffer equal the SHA-256 of bytes 9–21. Truncating the buffer to its first
54 bytes therefore leaves a checksum-valid buffer: `decode` accepts it,
parses the array up to `null`'s `0x00` tag (read as the array terminator),
ignores the leftover bytes, and returns `(["0000"], "")` — a value, not an
error. -/
theorem claim5_counterexample :
    encode (.arr (.cons (.str [48, 48, 48, 48]) (.cons .null (.cons (.int 646278534932726083) (.cons (.int (-3827949281889114684)) (.cons (.int 5233687657824805157) (.cons (.int (-6166252423496897044)) .nil))))))) [] =
      .ok [66, 65, 78, 85, 83, 65, 86, 69, 50, 0, 64, 48, 48, 48, 48, 48, 0, 0, 16, 8, 248, 10, 231, 68, 160, 1, 67, 16, 202, 224, 100, 104, 210, 201, 165, 196, 16, 72, 161, 203, 50, 13, 254, 97, 37, 16, 170, 109, 18, 23, 78, 19, 109, 236, 0, 202, 229, 128, 176, 237, 243, 145, 94, 200, 56, 190, 214, 119, 248, 39, 169, 50, 237, 249, 57, 54, 225, 237, 238, 36, 213, 171, 12, 87, 110, 36, 197] ∧
    ([66, 65, 78, 85, 83, 65, 86, 69, 50, 0, 64, 48, 48, 48, 48, 48, 0, 0, 16, 8, 248, 10, 231, 68, 160, 1, 67, 16, 202, 224, 100, 104, 210, 201, 165, 196, 16, 72, 161, 203, 50, 13, 254, 97, 37, 16, 170, 109, 18, 23, 78, 19, 109, 236, 0, 202, 229, 128, 176, 237, 243, 145, 94, 200, 56, 190, 214, 119, 248, 39, 169, 50, 237, 249, 57, 54, 225, 237, 238, 36, 213, 171, 12, 87, 110, 36, 197] : List Nat).length = 87 ∧
    decode (List.take 54 [66, 65, 78, 85, 83, 65, 86, 69, 50, 0, 64, 48, 48, 48, 48, 48, 0, 0, 16, 8, 248, 10, 231, 68, 160, 1, 67, 16, 202, 224, 100, 104, 210, 201, 165, 196, 16, 72, 161, 203, 50, 13, 254, 97, 37, 16, 170, 109, 18, 23, 78, 19, 109, 236, 0, 202, 229, 128, 176, 237, 243, 145, 94, 200, 56, 190, 214, 119, 248, 39, 169, 50, 237, 249, 57, 54, 225, 237, 238, 36, 213, 171, 12, 87, 110, 36, 197]) = .ok (.arr (.cons (.str [48, 48, 48, 48]) .nil), []) :=
  ⟨rfl, by decide, rfl⟩

/-- C5, amended: decode never reads past the end of the input (in the source,
every scanning read goes through `readUint8`/`readBigInt64BE`/`readDoubleBE`,
which throw `ERR_OUT_OF_RANGE` on an out-of-bounds offset — modelled here by
every read returning an explicit error result — so out-of-bounds access
surfaces as a reported error, not undefined behavior); and truncating a valid
encoded buffer to `t` bytes causes `decode` to fail — with the length error
for `t < 43`, and with the checksum (integrity) error whenever the truncated
buffer's last 32 bytes do not string-match the SHA-256 of its truncated body.
The counterexample shows the remaining case is real: a truncation whose
shortened checksum happens to validate is accepted. -/
theorem claim5_truncation (v : JSValue) (g B : List Nat) (t : Nat)
    (hB : encode v g = .ok B) (ht : t < B.length) :
    (t < 43 → decode (List.take t B) = .error .lengthErr) ∧
    (43 ≤ t →
      utf8Lossy (sha256 (subarr (List.take t B) 9 (t - 32))) ≠
        utf8Lossy (List.drop (t - 32) (List.take t B)) →
      decode (List.take t B) = .error .checksumErr) := by
  have htlen : (List.take t B).length = t := by
    rw [List.length_take]
    omega
  constructor
  · intro h43
    exact decode_short _ (by rw [htlen]; exact h43)
  · intro h43 hmis
    unfold encode at hB
    split at hB
    · rename_i ev hev
      simp only [Except.ok.injEq] at hB
      subst hB
      refine decode_checksum_mismatch _ (by rw [htlen]; omega) ?_ (by rw [htlen]; exact hmis)
      rw [List.take_take, show min 9 t = 9 by omega]
      rw [show magicBytes ++ (g ++ 0 :: ev) ++ sha256 (g ++ 0 :: ev) =
        magicBytes ++ ((g ++ 0 :: ev) ++ sha256 (g ++ 0 :: ev)) by simp]
      exact take_exact_append magicBytes _ 9 rfl
    · simp at hB

/-- C5, witness: truncating the 43-byte encoding of `(null, "")` to 10 bytes
fails with the length error. -/
theorem claim5_truncation_witness : decode (List.take 10 [66, 65, 78, 85, 83, 65, 86, 69, 50, 0, 0, 150, 162, 150, 210, 36, 242, 133, 198, 123, 238, 147, 195, 15, 138, 48, 145, 87, 240, 218, 163, 93, 197, 184, 126, 65, 11, 120, 99, 10, 9, 207, 199]) = .error .lengthErr :=
  (claim5_truncation .null [] [66, 65, 78, 85, 83, 65, 86, 69, 50, 0, 0, 150, 162, 150, 210, 36, 242, 133, 198, 123, 238, 147, 195, 15, 138, 48, 145, 87, 240, 218, 163, 93, 197, 184, 126, 65, 11, 120, 99, 10, 9, 207, 199] 10 (by rfl) (by decide)).1 (by decide)

/-! ## Claim C6 — unknown tag bytes -/

/-- C6: an unknown tag is *not* a fatal decode error at the top level. The
`switch` in `decodeValue` has no `default`, so it returns
`[undefined, undefined]`, and `decode` passes the undefined value through as
a success: this otherwise valid 43-byte envelope whose single value byte is
the unknown tag `0x60` decodes to `(undefined, "")` with no error, against
both the claim and the `@returns {[JSONValue, number]}` contract of the
source. -/
theorem claim6_unknown_tag_returns_undefined :
    decodeValue [96] = .ok .undef ∧
    decode [66, 65, 78, 85, 83, 65, 86, 69, 50, 0, 96, 246, 109, 9, 66, 131, 28, 63, 195, 165, 215, 177, 57, 155, 194, 249, 2, 127, 149, 248, 215, 53, 174, 42, 120, 242, 36, 12, 124, 239, 222, 82, 107] = .ok (.undef, []) :=
  ⟨rfl, rfl⟩

/-! ## Claim C7 — unsupported types -/

/-- C7: encoding a value of unsupported dynamic type (`undefined`, a
function, a symbol — `JSValue.undef` in the model), at the top level or
anywhere inside the tree, raises a caller-visible error (the `TypeError`
thrown by `Buffer.concat` over the `undefined` that the tag-less `switch`
produced, or an earlier error from a previous child), and never returns a
buffer. -/
theorem claim7_unsupported_type_errors (v : JSValue) (g : List Nat)
    (h : hasUndefV v = true) : ∃ e, encode v g = .error e := by
  obtain ⟨e, he⟩ := encodeValue_error_of_undef v h
  exact ⟨e, by simp [encode, he]⟩

/-- C7, witness: `encode undefined "" ` throws. -/
theorem claim7_unsupported_type_errors_witness : ∃ e, encode .undef [] = .error e :=
  claim7_unsupported_type_errors .undef [] rfl

/-! ## Claim C8 — envelope layout -/

/-- C8: whenever the value encodes, the output of `encode` is bit-exactly
`"BANUSAVE2"` (9 ASCII bytes) ++ body ++ SHA-256(body) with
`body = gameId bytes ++ 0x00 ++ encodeValue v`, and the checksum is exactly
32 bytes. -/
theorem claim8_envelope_shape (v : JSValue) (g bs : List Nat)
    (he : encodeValue v = .ok bs) :
    encode v g = .ok (magicBytes ++ (g ++ 0 :: bs) ++ sha256 (g ++ 0 :: bs)) ∧
    (sha256 (g ++ 0 :: bs)).length = 32 ∧
    magicBytes = [66, 65, 78, 85, 83, 65, 86, 69, 50] ∧
    (magicBytes ++ (g ++ 0 :: bs) ++ sha256 (g ++ 0 :: bs)).length =
      9 + (g.length + 1 + bs.length) + 32 := by
  refine ⟨by unfold encode; rw [he], sha256_length _, rfl, ?_⟩
  simp only [List.length_append, List.length_cons, magicBytes_length, sha256_length]
  omega

/-- C8, witness: the envelope shape at `v = null`, `g = ""`. -/
theorem claim8_envelope_shape_witness :
    encode .null [] = .ok (magicBytes ++ ([] ++ 0 :: [0]) ++ sha256 ([] ++ 0 :: [0])) ∧
    (sha256 ([] ++ 0 :: [0])).length = 32 ∧
    magicBytes = [66, 65, 78, 85, 83, 65, 86, 69, 50] ∧
    (magicBytes ++ ([] ++ 0 :: [0]) ++ sha256 ([] ++ 0 :: [0])).length =
      9 + (([] : List Nat).length + 1 + ([0] : List Nat).length) + 32 :=
  claim8_envelope_shape .null [] [0] rfl

/-! ## Claim C9 — trailing bytes after the value -/

/-- C9, counterexample. The claim says trailing bytes after a fully-consumed
value cause a decode error; in the source the consumed length is discarded
(`decodeValue(...)[0]`), so this envelope with body `"" ++ 0x00 ++ null ++
0x07` — one junk byte after the value, checksum valid — decodes successfully
to `(null, "")` instead of failing. -/
theorem claim9_counterexample :
    decodeValue [0, 7] = .ok (.val .null 1) ∧
    decode [66, 65, 78, 85, 83, 65, 86, 69, 50, 0, 0, 7, 79, 202, 6, 143, 191, 201, 189, 253, 26, 92, 22, 66, 123, 14, 52, 197, 51, 156, 76, 91, 88, 23, 105, 217, 232, 206, 217, 10, 139, 62, 254, 87] = .ok (.null, []) :=
  ⟨rfl, rfl⟩

/-- C9, amended: `decode` never compares the reported consumed length with
the remaining body length; any junk bytes between the decoded value and the
checksum are silently ignored and the value is returned as a success
(provided the checksum covers the junk, as any in-band corruption would). -/
theorem claim9_trailing_ignored (v : JSValue) (g bs junk : List Nat)
    (he : encodeValue v = .ok bs) (hd : decodableV v = true)
    (hg : nulFreeBytes g = true) :
    decode (magicBytes ++ (g ++ 0 :: (bs ++ junk)) ++ sha256 (g ++ 0 :: (bs ++ junk))) =
      .ok (v, g) :=
  decode_body v g bs junk he hd hg

/-- C9, witness: the amended statement at `v = null`, `g = ""`,
`junk = [0x07]`. -/
theorem claim9_trailing_ignored_witness :
    decode (magicBytes ++ ([] ++ 0 :: ([0] ++ [7])) ++ sha256 ([] ++ 0 :: ([0] ++ [7]))) =
      .ok (.null, []) :=
  claim9_trailing_ignored .null [] [0] [7] rfl rfl rfl

/-! ## Claim C10 — the empty game id -/

/-- C10, counterexample: with the empty game id the round-trip part of the
claim still fails on `[null]`, for the same end-marker collision as in C1. -/
theorem claim10_counterexample :
    encode (.arr (.cons .null .nil)) [] = .ok [66, 65, 78, 85, 83, 65, 86, 69, 50, 0, 64, 0, 0, 201, 164, 28, 120, 237, 65, 112, 193, 130, 107, 227, 181, 218, 85, 232, 127, 75, 163, 33, 7, 165, 89, 93, 211, 75, 174, 176, 203, 162, 87, 14, 177] ∧
    decode [66, 65, 78, 85, 83, 65, 86, 69, 50, 0, 64, 0, 0, 201, 164, 28, 120, 237, 65, 112, 193, 130, 107, 227, 181, 218, 85, 232, 127, 75, 163, 33, 7, 165, 89, 93, 211, 75, 174, 176, 203, 162, 87, 14, 177] = .ok (.arr .nil, []) ∧
    (JSValue.arr .nil) ≠ .arr (.cons .null .nil) :=
  ⟨rfl, rfl, by decide⟩

/-- C10, amended: the empty string is a valid game id: for every decodable
value (see C1), `encode v ""` succeeds, its output has exactly
`42 + |encodeValue v|` bytes — always at least the 43-byte minimum — and
decoding it returns `(v, "")`. -/
theorem claim10_empty_game_id (v : JSValue) (bs : List Nat)
    (he : encodeValue v = .ok bs) (hd : decodableV v = true) :
    ∃ B, encode v [] = .ok B ∧ B.length = 42 + bs.length ∧ 43 ≤ B.length ∧
      decode B = .ok (v, []) := by
  refine ⟨magicBytes ++ ([] ++ 0 :: bs) ++ sha256 ([] ++ 0 :: bs),
    by unfold encode; rw [he], ?_, ?_, ?_⟩
  · simp only [List.length_append, List.length_cons, magicBytes_length, sha256_length,
      List.nil_append, List.length_nil]
    omega
  · have := encodeValue_length_pos v bs he
    simp only [List.length_append, List.length_cons, magicBytes_length, sha256_length,
      List.nil_append, List.length_nil]
    omega
  · have := decode_body v [] bs [] he hd rfl
    simpa using this

/-- C10, witness: the amended statement at `v = true`. -/
theorem claim10_empty_game_id_witness :
    ∃ B, encode (.bool true) [] = .ok B ∧ B.length = 42 + ([2] : List Nat).length ∧
      43 ≤ B.length ∧ decode B = .ok (.bool true, []) :=
  claim10_empty_game_id (.bool true) [2] rfl rfl
